import Mathlib

/-!
Verification model of the market-exchange-simulator repository
(publisher / subscriber pair with a ring-buffer retransmission store).

The C++ sources are embedded shallowly:
* protocol.hpp   : the 32-byte TickPacket wire record and the 8-byte
                   RetransmitRequest (a single u64).
* ring_buffer.hpp: core::RingBuffer<T, Capacity> with push / get.
* publisher.cpp  : tick construction (symbol strncpy, quantity formula),
                   price generation (random walk, fundamental shock,
                   transient anomaly) and the retransmission server.
* subscriber.cpp : the ingest loop (gap detection, TCP recovery,
                   delivery to the trading-rule consumer) and the
                   signal-handler exit path.

Machine integers are modelled as Nat (all the arithmetic the claims touch
stays far below 2^64, and the one subtraction the code performs is guarded
so that Nat truncated subtraction agrees with the C++ unsigned one).
The 64-bit IEEE-754 price travels on the wire as an opaque 8-byte pattern,
modelled by a Nat field; the publisher's price arithmetic is modelled
exactly over ℚ.  Randomness is modelled by passing the drawn values and
branch outcomes as explicit parameters; the network is modelled by an
explicit list of receive events and an oracle for the retransmit channel.
-/

namespace MarketSim

/-! ### Wire formats (protocol.hpp) -/

/-- Model of protocol::TickPacket, the 32-byte wire record:
sequence_num (u64), timestamp (u64), price (double, kept here as its
8-byte pattern), quantity (u32), symbol (4 raw bytes). -/
structure TickPacket where
  sequence_num : ℕ
  timestamp : ℕ
  price : ℕ
  quantity : ℕ
  symbol : Fin 4 → ℕ

/-- Little-endian byte serialisation of a machine integer: width in bytes
first, then the value. -/
def toLEBytes : ℕ → ℕ → List ℕ
  | 0, _ => []
  | w + 1, n => n % 256 :: toLEBytes w (n / 256)

/-- Serialisation of a TickPacket exactly as memcpy lays it out on the
wire: the four fields in declaration order, little-endian, 32 bytes. -/
def encodeTick (t : TickPacket) : List ℕ :=
  toLEBytes 8 t.sequence_num ++ toLEBytes 8 t.timestamp ++
    toLEBytes 8 t.price ++ toLEBytes 4 t.quantity ++
    [t.symbol 0, t.symbol 1, t.symbol 2, t.symbol 3]

/-! ### Ring buffer (ring_buffer.hpp) -/

/-- Model of core::RingBuffer<T, C>.  The two C-element arrays are
modelled as total functions read and written at index `seq % C`. -/
structure RingBuffer (T : Type) (C : ℕ) where
  buffer : ℕ → T
  seq_nums : ℕ → ℕ
  max_seq : ℕ

/-- RingBuffer::push: write the item and its sequence number into slot
`seq % C`, and raise max_seq if exceeded. -/
def RingBuffer.push {T : Type} {C : ℕ} (r : RingBuffer T C)
    (seq_num : ℕ) (item : T) : RingBuffer T C :=
  { buffer := fun i => if i = seq_num % C then item else r.buffer i
    seq_nums := fun i => if i = seq_num % C then seq_num else r.seq_nums i
    max_seq := if seq_num > r.max_seq then seq_num else r.max_seq }

/-- RingBuffer::get: ABSENT (none) when evicted
(`max_seq ≥ C ∧ seq ≤ max_seq - C`, the subtraction guarded exactly as
the unsigned C++ one) or when the slot records a different sequence;
otherwise the stored item. -/
def RingBuffer.get {T : Type} {C : ℕ} (r : RingBuffer T C)
    (seq_num : ℕ) : Option T :=
  if r.max_seq ≥ C ∧ seq_num ≤ r.max_seq - C then none
  else if r.seq_nums (seq_num % C) = seq_num then some (r.buffer (seq_num % C))
  else none

/-- The ring as the publisher constructs it, with every recorded slot
sequence number at its zero default and `d` the default item value. -/
def RingBuffer.init {T : Type} (C : ℕ) (d : T) : RingBuffer T C :=
  { buffer := fun _ => d, seq_nums := fun _ => 0, max_seq := 0 }

/-- A run of `k` further pushes with contiguous sequence numbers
`s+1, …, s+k` (items drawn from `items`), as the publisher's
strictly-sequential producer performs them. -/
def pushRun {T : Type} {C : ℕ} (r : RingBuffer T C) (s : ℕ)
    (items : ℕ → T) : ℕ → RingBuffer T C
  | 0 => r
  | k + 1 => (pushRun r s items k).push (s + k + 1) (items (k + 1))

/-- Every recorded slot sequence number is bounded by max_seq.  This
holds for the zero-initialised ring and is preserved by push. -/
def SeqBounded {T : Type} {C : ℕ} (r : RingBuffer T C) : Prop :=
  ∀ i : ℕ, r.seq_nums i ≤ r.max_seq

/-! ### Publisher (publisher.cpp) -/

/-- RING_BUFFER_SIZE, the reference capacity `C = 10000`. -/
def RING_BUFFER_SIZE : ℕ := 10000

/-- Semantics of C strncpy(dst, src, n) restricted to the `n` bytes it
writes: source bytes are copied up to the first NUL or to `n`, and when
the source ends early the remainder of the `n` bytes is NUL-filled. -/
def strncpyBytes (src : List ℕ) : ℕ → List ℕ
  | 0 => []
  | n + 1 =>
    match src with
    | [] => List.replicate (n + 1) 0
    | c :: cs => if c = 0 then List.replicate (n + 1) 0
                 else c :: strncpyBytes cs n

/-- The symbol field the publisher produces: the tick is zero-initialised
(`protocol::TickPacket tick{}`) and then
`strncpy(tick.symbol, symbols[sym_idx], sizeof(tick.symbol) - 1)` writes
the first `4 - 1 = 3` bytes; byte 3 keeps its zero initialisation. -/
def tickSymbolField (sym : List ℕ) : Fin 4 → ℕ :=
  fun i => (strncpyBytes sym 3 ++ [0]).getD i 0

/-- The four symbol bytes of a packet, in wire order. -/
def symbolBytes (t : TickPacket) : List ℕ :=
  [t.symbol 0, t.symbol 1, t.symbol 2, t.symbol 3]

/-- Tick construction in the publisher's batch loop: sequence number,
timestamp, price bytes, `quantity = 100 + (seq mod 50)` and the
strncpy-truncated symbol. -/
def buildTick (seq_num timestamp price : ℕ) (sym : List ℕ) : TickPacket :=
  { sequence_num := seq_num
    timestamp := timestamp
    price := price
    quantity := 100 + seq_num % 50
    symbol := tickSymbolField sym }

/-- Price floor `if (p < 1.0) p = 1.0`, applied after the walk and after
a fundamental shock. -/
def floor1 (p : ℚ) : ℚ := if p < 1 then 1 else p

/-- Pointwise update of the `current_prices` array. -/
def updatePrices (prices : ℕ → ℚ) (i : ℕ) (v : ℚ) : ℕ → ℚ :=
  fun j => if j = i then v else prices j

/-- One price-generation step of the publisher for the chosen symbol
index, with the random draws passed in explicitly: `δ` the random-walk
delta, `fundamental` whether `fundamental_dist(rng) == 1` hit (depth
`df`), `anomaly` whether `anomaly_dist(rng) == 1` hit (depth `da`).
Returns the updated `current_prices` array and the published price.
The double arithmetic of the source is modelled exactly over ℚ. -/
def genStep (prices : ℕ → ℚ) (sym_idx : ℕ) (δ df da : ℚ)
    (fundamental anomaly : Bool) : (ℕ → ℚ) × ℚ :=
  let walked := floor1 (prices sym_idx + prices sym_idx * δ)
  if fundamental then
    let shocked := floor1 (walked - walked * df)
    (updatePrices prices sym_idx shocked, shocked)
  else if anomaly then
    (updatePrices prices sym_idx walked, walked - walked * da)
  else
    (updatePrices prices sym_idx walked, walked)

/-- Big-endian-free reading of a little-endian byte list back into a
machine integer (used to decode the 8 request bytes). -/
def fromLEBytes : List ℕ → ℕ
  | [] => 0
  | b :: bs => b + 256 * fromLEBytes bs

/-- The retransmission server's response for an already-decoded request:
ring get, then either the 32 tick bytes or nothing before close. -/
def retransmitResponse {C : ℕ} (r : RingBuffer TickPacket C)
    (missed_sequence_num : ℕ) : List ℕ :=
  match r.get missed_sequence_num with
  | some t => encodeTick t
  | none => []

/-- The per-connection exchange: the server reads up to 8 request bytes;
only a full 8-byte RetransmitRequest is served, anything shorter is
logged and the connection closed with no bytes written. -/
def serveConnection {C : ℕ} (r : RingBuffer TickPacket C)
    (reqBytes : List ℕ) : List ℕ :=
  if reqBytes.length = 8 then retransmitResponse r (fromLEBytes reqBytes)
  else []

/-! ### Subscriber (subscriber.cpp) -/

/-- One iteration's receive outcome on the multicast socket:
a full 32-byte datagram carrying a tick, a datagram of some other
length `n ≠ 32`, or a failed recvfrom (`received < 0`). -/
inductive RecvEvent : Type
  | datagram : TickPacket → RecvEvent
  | wrongSize : ℕ → RecvEvent
  | fail : RecvEvent

/-- Observable outcome of the ingest loop: the final `expected_seq`
cursor, the ticks delivered to the trading-rule consumer in order, and
the sequence numbers whose TCP recovery returned a full 32-byte tick
(these are only logged by the code). -/
structure IngestResult where
  expected_seq : ℕ
  delivered : List TickPacket
  recovered : List ℕ

/-- The sequences in `[lo, hi)` for which the retransmit channel
(modelled by the oracle `retrans`) returns a full 32-byte tick, in the
ascending order the recovery loop requests them. -/
def gapRecovered (retrans : ℕ → Option TickPacket) (lo hi : ℕ) : List ℕ :=
  (List.range' lo (hi - lo)).filter fun m => (retrans m).isSome

/-- The subscriber ingest loop over a list of receive events, starting
from cursor `expected_seq`.  Mirrors subscriber.cpp exactly: a 32-byte
datagram first runs the recovery loop when
`expected_seq ≠ 0 ∧ tick.sequence_num > expected_seq` (recovered ticks
are only logged), then the in-band tick is unconditionally delivered to
the consumer and `expected_seq` is set to `tick.sequence_num + 1`;
a wrong-sized datagram is skipped; a failed receive breaks the loop. -/
def ingestRun (retrans : ℕ → Option TickPacket) :
    ℕ → List RecvEvent → IngestResult
  | e, [] => ⟨e, [], []⟩
  | e, RecvEvent.fail :: _ => ⟨e, [], []⟩
  | e, RecvEvent.wrongSize _ :: evs => ingestRun retrans e evs
  | e, RecvEvent.datagram t :: evs =>
    let gapLog := if e ≠ 0 ∧ t.sequence_num > e
                  then gapRecovered retrans e t.sequence_num else []
    let rest := ingestRun retrans (t.sequence_num + 1) evs
    ⟨rest.expected_seq, t :: rest.delivered, gapLog ++ rest.recovered⟩

/-- Payloads of the full 32-byte datagrams received before the first
failed receive — exactly what the loop hands to the consumer. -/
def inbandTicks : List RecvEvent → List TickPacket
  | [] => []
  | RecvEvent.fail :: _ => []
  | RecvEvent.wrongSize _ :: evs => inbandTicks evs
  | RecvEvent.datagram t :: evs => t :: inbandTicks evs

/-- Sequence numbers of every full 32-byte datagram in the event list
(the arrival order on the wire). -/
def datagramSeqs : List RecvEvent → List ℕ
  | [] => []
  | RecvEvent.datagram t :: evs => t.sequence_num :: datagramSeqs evs
  | _ :: evs => datagramSeqs evs

/-- Sequence numbers of a tick list. -/
def seqsOf (l : List TickPacket) : List ℕ :=
  l.map TickPacket.sequence_num

/-- SIGINT, the interrupt signal the subscriber installs its handler
for. -/
def SIGINT : ℕ := 2

/-- The three ways the subscriber process terminates. -/
inductive SubscriberTermination : Type
  | signal : ℕ → SubscriberTermination
  | fatalException : SubscriberTermination
  | loopEnd : SubscriberTermination

/-- The subscriber's exit code: the signal handler calls
`exit(signum)`, the catch-all in main returns 1, and falling off the
ingest loop returns 0. -/
def subscriberExitCode : SubscriberTermination → ℕ
  | SubscriberTermination.signal signum => signum
  | SubscriberTermination.fatalException => 1
  | SubscriberTermination.loopEnd => 0

/-! ### Concrete fixtures used by counterexamples and witnesses -/

/-- A concrete tick with the given sequence number and a blank symbol. -/
def mkTick (s : ℕ) : TickPacket := buildTick s 0 0 []

/-- A retransmit channel that answers every request with a full tick. -/
def retransAll : ℕ → Option TickPacket := fun m => some (mkTick m)

/-- A default-valued tick (the zero-initialised ring content). -/
def tick0 : TickPacket := buildTick 0 0 0 []

/-- A concrete non-default tick. -/
def tickA : TickPacket := buildTick 1 5 77 [65, 65, 80, 76]

/-! ## Helper lemmas -/

theorem toLEBytes_length (w n : ℕ) : (toLEBytes w n).length = w := by
  induction w generalizing n with
  | zero => rfl
  | succ w ih => simp [toLEBytes, ih]

theorem encodeTick_length (t : TickPacket) : (encodeTick t).length = 32 := by
  simp [encodeTick, toLEBytes_length]

theorem seqBounded_init {T : Type} (C : ℕ) (d : T) :
    SeqBounded (RingBuffer.init C d) := fun _ => Nat.le_refl 0

theorem seqBounded_push {T : Type} {C : ℕ} {r : RingBuffer T C}
    (h : SeqBounded r) (seq_num : ℕ) (item : T) :
    SeqBounded (r.push seq_num item) := by
  intro i
  have hb := h i
  simp only [RingBuffer.push]
  by_cases hi : i = seq_num % C <;> simp [hi] <;> split <;> omega

/-- Adding a nonzero offset smaller than the modulus changes the
residue. -/
theorem add_mod_ne {C s j : ℕ} (h0 : 0 < j) (hj : j < C) :
    (s + j) % C ≠ s % C := by
  intro h
  have hd : C ∣ (s + j) - s :=
    (Nat.modEq_iff_dvd' (Nat.le_add_right s j)).mp h.symm
  rw [Nat.add_sub_cancel_left] at hd
  exact absurd (Nat.le_of_dvd h0 hd) (by omega)

/-- State of the ring after `k` contiguous pushes on top of a ring whose
max is `s`: the max advances to `s + k` and, as long as `k < C`, the
slot of `s` is untouched. -/
theorem pushRun_state {T : Type} {C : ℕ} (r0 : RingBuffer T C) (s : ℕ)
    (items : ℕ → T) (k : ℕ) (hk : k < C) (hmax : r0.max_seq = s) :
    (pushRun r0 s items k).max_seq = s + k ∧
    (pushRun r0 s items k).seq_nums (s % C) = r0.seq_nums (s % C) ∧
    (pushRun r0 s items k).buffer (s % C) = r0.buffer (s % C) := by
  induction k with
  | zero => simp [pushRun, hmax]
  | succ k ih =>
    obtain ⟨h1, h2, h3⟩ := ih (Nat.lt_of_succ_lt hk)
    have hne : s % C ≠ (s + k + 1) % C := by
      have := add_mod_ne (C := C) (s := s) (j := k + 1) (Nat.succ_pos k) hk
      rw [← Nat.add_assoc] at this
      exact this.symm
    refine ⟨?_, ?_, ?_⟩
    · simp only [pushRun, RingBuffer.push, h1]
      split <;> omega
    · simp only [pushRun, RingBuffer.push]
      rw [if_neg hne, h2]
    · simp only [pushRun, RingBuffer.push]
      rw [if_neg hne, h3]

/-- After push(s, t) and `k < C` further contiguous pushes, get(s) still
returns t. -/
theorem get_pushRun {T : Type} {C : ℕ} (r : RingBuffer T C) (s : ℕ)
    (t : T) (items : ℕ → T) (k : ℕ) (hk : k < C) (hmax : r.max_seq ≤ s) :
    (pushRun (r.push s t) s items k).get s = some t := by
  have hm0 : (r.push s t).max_seq = s := by
    simp only [RingBuffer.push]
    split <;> omega
  obtain ⟨h1, h2, h3⟩ := pushRun_state (r.push s t) s items k hk hm0
  have hs0 : (r.push s t).seq_nums (s % C) = s := by
    simp [RingBuffer.push]
  have hb0 : (r.push s t).buffer (s % C) = t := by
    simp [RingBuffer.push]
  have hcond : ¬((pushRun (r.push s t) s items k).max_seq ≥ C ∧
      s ≤ (pushRun (r.push s t) s items k).max_seq - C) := by
    rw [h1]; omega
  rw [RingBuffer.get, if_neg hcond, h2, hs0, if_pos rfl, h3, hb0]

/-- Requests above max_seq find neither an evicted slot nor a matching
one, on any ring whose recorded sequence numbers are bounded by its
max. -/
theorem get_none_of_gt_max {T : Type} {C : ℕ} {r : RingBuffer T C}
    (hb : SeqBounded r) {s : ℕ} (h : r.max_seq < s) : r.get s = none := by
  unfold RingBuffer.get
  split
  · rfl
  · have hbb := hb (s % C)
    have hne : r.seq_nums (s % C) ≠ s := by omega
    rw [if_neg hne]

/-- The ingest loop delivers exactly the in-band full-size datagrams
received before the first failed receive, whatever the retransmit
channel answers. -/
theorem ingestRun_delivered (retrans : ℕ → Option TickPacket) (e : ℕ)
    (evs : List RecvEvent) :
    (ingestRun retrans e evs).delivered = inbandTicks evs := by
  induction evs generalizing e with
  | nil => rfl
  | cons ev evs ih => cases ev <;> simp [ingestRun, inbandTicks, ih]

/-- Every sequence number the loop logs as recovered got a full 32-byte
answer from the retransmit channel. -/
theorem ingestRun_recovered_isSome (retrans : ℕ → Option TickPacket)
    (e : ℕ) (evs : List RecvEvent) :
    ∀ m ∈ (ingestRun retrans e evs).recovered, (retrans m).isSome := by
  induction evs generalizing e with
  | nil => intro m hm; cases hm
  | cons ev evs ih =>
    cases ev with
    | fail => intro m hm; cases hm
    | wrongSize n => exact ih e
    | datagram t =>
      intro m hm
      simp only [ingestRun, List.mem_append] at hm
      rcases hm with hm | hm
      · by_cases hc : e ≠ 0 ∧ t.sequence_num > e
        · rw [if_pos hc] at hm
          exact (List.mem_filter.mp hm).2
        · rw [if_neg hc] at hm
          cases hm
      · exact ih (t.sequence_num + 1) m hm

/-- The delivered sequence numbers form a sublist of the arriving
datagram sequence numbers. -/
theorem inband_seqs_sublist (evs : List RecvEvent) :
    List.Sublist (seqsOf (inbandTicks evs)) (datagramSeqs evs) := by
  induction evs with
  | nil => simp [inbandTicks, datagramSeqs, seqsOf]
  | cons ev evs ih =>
    cases ev with
    | fail => simp [inbandTicks, datagramSeqs, seqsOf]
    | wrongSize n => simpa [inbandTicks, datagramSeqs] using ih
    | datagram t =>
      simpa [inbandTicks, datagramSeqs, seqsOf] using ih.cons₂ t.sequence_num

theorem strncpyBytes_length (src : List ℕ) (n : ℕ) :
    (strncpyBytes src n).length = n := by
  induction n generalizing src with
  | zero => simp [strncpyBytes]
  | succ n ih =>
    cases src with
    | nil => simp [strncpyBytes]
    | cons c cs =>
      by_cases hc : c = 0 <;> simp [strncpyBytes, hc, ih]

/-- On a source with no NUL bytes, strncpy copies the first `n` bytes
and zero-fills whatever the source does not cover. -/
theorem strncpyBytes_noZero (src : List ℕ) (n : ℕ)
    (h : ∀ b ∈ src, b ≠ 0) :
    strncpyBytes src n = src.take n ++ List.replicate (n - src.length) 0 := by
  induction n generalizing src with
  | zero => simp [strncpyBytes]
  | succ n ih =>
    cases src with
    | nil => simp [strncpyBytes]
    | cons c cs =>
      have hc : c ≠ 0 := h c (List.mem_cons_self c cs)
      have hcs : ∀ b ∈ cs, b ≠ 0 := fun b hb => h b (List.mem_cons_of_mem c hb)
      simp [strncpyBytes, hc, ih cs hcs, Nat.succ_sub_succ]

/-- Reading four positions of a four-element list reproduces it. -/
theorem getD_four (l : List ℕ) (hl : l.length = 4) :
    [l.getD 0 0, l.getD 1 0, l.getD 2 0, l.getD 3 0] = l := by
  match l, hl with
  | [a, b, c, d], _ => rfl

/-- The wire symbol bytes of a constructed tick are the three
strncpy-written bytes followed by the zero-initialised fourth byte. -/
theorem symbolBytes_buildTick (seq_num timestamp price : ℕ)
    (sym : List ℕ) :
    symbolBytes (buildTick seq_num timestamp price sym) =
      strncpyBytes sym 3 ++ [0] := by
  have hlen : (strncpyBytes sym 3 ++ [0]).length = 4 := by
    simp [strncpyBytes_length]
  simpa [symbolBytes, buildTick, tickSymbolField] using
    getD_four (strncpyBytes sym 3 ++ [0]) hlen

/-! ## Claim theorems -/

/-- Claim C1, counterexample: with a gap of one missing sequence (5 then
7 arrive, 6 is missing) and a retransmit channel that returns a full
32-byte tick for every request, sequence 6 is logged as recovered but no
tick with sequence 6 is ever delivered to the consumer — refuting the
claim that every recovered tick is delivered (before the in-band
tick). -/
theorem recovery_delivery_cex :
    6 ∈ (ingestRun retransAll 0
      [RecvEvent.datagram (mkTick 5), RecvEvent.datagram (mkTick 7)]).recovered ∧
    6 ∉ seqsOf (ingestRun retransAll 0
      [RecvEvent.datagram (mkTick 5), RecvEvent.datagram (mkTick 7)]).delivered := by
  decide

/-- Claim C1, amended: during gap recovery each missing sequence whose
retransmit returns a full 32-byte tick is logged as recovered, but the
recovered tick is NOT delivered to the consumer; the delivered stream is
exactly the in-band full-size datagrams (up to the first receive
failure) and is independent of what the retransmit channel returns. -/
theorem recovery_logged_not_delivered
    (retrans retrans2 : ℕ → Option TickPacket) (e : ℕ)
    (evs : List RecvEvent) :
    (ingestRun retrans e evs).delivered = inbandTicks evs ∧
    (ingestRun retrans e evs).delivered =
      (ingestRun retrans2 e evs).delivered ∧
    ∀ m ∈ (ingestRun retrans e evs).recovered, (retrans m).isSome := by
  refine ⟨ingestRun_delivered retrans e evs, ?_,
    ingestRun_recovered_isSome retrans e evs⟩
  rw [ingestRun_delivered retrans e evs, ingestRun_delivered retrans2 e evs]

/-- Witness for the amended C1 theorem at the concrete gap run. -/
theorem recovery_logged_not_delivered_wit : (retransAll 6).isSome :=
  (recovery_logged_not_delivered retransAll retransAll 0
    [RecvEvent.datagram (mkTick 5), RecvEvent.datagram (mkTick 7)]).2.2
    6 (by decide)

/-- Claim C2, counterexample: an execution in which a datagram with
sequence 2 arrives before one with sequence 1 delivers [2, 1] to the
consumer — not strictly increasing, refuting the claimed invariant. -/
theorem delivered_monotone_cex :
    ¬ List.Pairwise (· < ·) (seqsOf (ingestRun retransAll 0
      [RecvEvent.datagram (mkTick 2), RecvEvent.datagram (mkTick 1)]).delivered) := by
  decide

/-- Claim C2, amended: the consumer receives exactly the in-band
datagrams in arrival order, so the delivered sequence numbers are
strictly increasing only in executions whose arriving datagram sequence
numbers are themselves strictly increasing. -/
theorem delivered_monotone_of_arrival_monotone
    (retrans : ℕ → Option TickPacket) (e : ℕ) (evs : List RecvEvent)
    (h : List.Pairwise (· < ·) (datagramSeqs evs)) :
    List.Pairwise (· < ·) (seqsOf (ingestRun retrans e evs).delivered) := by
  rw [ingestRun_delivered retrans e evs]
  exact h.sublist (inband_seqs_sublist evs)

/-- Witness for the amended C2 theorem on an in-order arrival run. -/
theorem delivered_monotone_wit :
    List.Pairwise (· < ·) (seqsOf (ingestRun retransAll 0
      [RecvEvent.datagram (mkTick 1), RecvEvent.datagram (mkTick 2)]).delivered) :=
  delivered_monotone_of_arrival_monotone retransAll 0
    [RecvEvent.datagram (mkTick 1), RecvEvent.datagram (mkTick 2)]
    (by decide)

/-- Claim C3, counterexample: after syncing to sequence 19 (cursor 20),
a late datagram with sequence 7 is NOT discarded: it is delivered to the
consumer and the cursor regresses to 8, refuting both halves of the
claim. -/
theorem late_duplicate_cex :
    seqsOf (ingestRun retransAll 0
      [RecvEvent.datagram (mkTick 19), RecvEvent.datagram (mkTick 7)]).delivered
      = [19, 7] ∧
    (ingestRun retransAll 0
      [RecvEvent.datagram (mkTick 19), RecvEvent.datagram (mkTick 7)]).expected_seq
      = 8 := by
  decide

/-- Claim C3, amended: a datagram whose sequence number is below the
nonzero cursor triggers no recovery, is delivered to the consumer
anyway, and resets expected_seq to its sequence number plus one (the
cursor regresses). -/
theorem late_tick_delivered (retrans : ℕ → Option TickPacket) (e : ℕ)
    (t : TickPacket) (evs : List RecvEvent)
    (he : e ≠ 0) (hlt : t.sequence_num < e) :
    ingestRun retrans e (RecvEvent.datagram t :: evs) =
      ⟨(ingestRun retrans (t.sequence_num + 1) evs).expected_seq,
       t :: (ingestRun retrans (t.sequence_num + 1) evs).delivered,
       (ingestRun retrans (t.sequence_num + 1) evs).recovered⟩ := by
  have hc : ¬(e ≠ 0 ∧ t.sequence_num > e) := by omega
  simp [ingestRun, hc]

/-- Witness for the amended C3 theorem: cursor 20, late sequence 7. -/
theorem late_tick_delivered_wit :
    ingestRun retransAll 20 [RecvEvent.datagram (mkTick 7)] =
      ⟨(ingestRun retransAll ((mkTick 7).sequence_num + 1) []).expected_seq,
       mkTick 7 :: (ingestRun retransAll ((mkTick 7).sequence_num + 1) []).delivered,
       (ingestRun retransAll ((mkTick 7).sequence_num + 1) []).recovered⟩ :=
  late_tick_delivered retransAll 20 (mkTick 7) [] (by decide) (by decide)

/-- Claim C4, counterexample: in the reference ring (C = 10000), after
push(1, 11) a single further push with the strictly greater but
non-contiguous sequence 10001 already makes get(1) return ABSENT, so
the claim's "arbitrary strictly greater sequence numbers" reading
fails after far fewer than C pushes. -/
theorem ring_arbitrary_push_cex :
    (((RingBuffer.init RING_BUFFER_SIZE (0 : ℕ)).push 1 11).push 10001 22).get 1
      = none ∧
    (((RingBuffer.init RING_BUFFER_SIZE (0 : ℕ)).push 1 11).push 10001 22).get 1
      ≠ some 11 := by
  decide

/-- Claim C4, amended: after push(s, t) on a ring whose max is at most
s, get(s) still returns t after any `k < C` further pushes with strictly
greater CONTIGUOUS sequence numbers s+1, …, s+k (as the publisher's
strictly sequential producer performs them). -/
theorem ring_get_after_contiguous_pushes {T : Type} (C : ℕ)
    (r : RingBuffer T C) (s : ℕ) (t : T) (items : ℕ → T) (k : ℕ)
    (hk : k < C) (hmax : r.max_seq ≤ s) :
    (pushRun (r.push s t) s items k).get s = some t :=
  get_pushRun r s t items k hk hmax

/-- Witness for the amended C4 theorem: capacity 3, push 1 then two
contiguous pushes. -/
theorem ring_get_after_contiguous_pushes_wit :
    (pushRun ((RingBuffer.init 3 (0 : ℕ)).push 1 11) 1 (fun _ => 99) 2).get 1
      = some 11 :=
  ring_get_after_contiguous_pushes 3 (RingBuffer.init 3 0) 1 11
    (fun _ => 99) 2 (by decide) (by decide)

/-- Claim C5: the retransmission server writes either exactly 32 bytes
or zero bytes before closing; a request for a sequence above max_seq
(on any ring whose recorded slot sequences are bounded by its max, as
every ring the publisher builds is) gets zero bytes; and a request for
a pushed sequence that fewer than C later contiguous pushes have
followed gets exactly the 32 bytes of the pushed tick. -/
theorem retransmit_response_sizes (C : ℕ) :
    (∀ (r : RingBuffer TickPacket C) (req : List ℕ),
        (serveConnection r req).length = 0 ∨
        (serveConnection r req).length = 32) ∧
    (∀ (r : RingBuffer TickPacket C) (s : ℕ), SeqBounded r →
        r.max_seq < s → retransmitResponse r s = []) ∧
    (∀ (r : RingBuffer TickPacket C) (s : ℕ) (t : TickPacket)
        (items : ℕ → TickPacket) (k : ℕ), k < C → r.max_seq ≤ s →
        retransmitResponse (pushRun (r.push s t) s items k) s
          = encodeTick t) := by
  refine ⟨fun r req => ?_, fun r s hb h => ?_,
    fun r s t items k hk hmax => ?_⟩
  · unfold serveConnection
    split
    · unfold retransmitResponse
      rcases hg : r.get (fromLEBytes req) with _ | u
      · simp [hg]
      · simp [hg, encodeTick_length]
    · simp
  · unfold retransmitResponse
    rw [get_none_of_gt_max hb h]
  · unfold retransmitResponse
    rw [get_pushRun r s t items k hk hmax]

/-- Witness for the C5 theorem: a too-new request gets zero bytes and a
live request gets the pushed tick's 32-byte encoding, on a concrete
capacity-2 ring. -/
theorem retransmit_response_sizes_wit :
    retransmitResponse ((RingBuffer.init 2 tick0).push 1 tickA) 5 = [] ∧
    retransmitResponse
      (pushRun ((RingBuffer.init 2 tick0).push 1 tickA) 1 (fun _ => tick0) 1) 1
      = encodeTick tickA :=
  ⟨(retransmit_response_sizes 2).2.1 ((RingBuffer.init 2 tick0).push 1 tickA)
      5 (seqBounded_push (seqBounded_init 2 tick0) 1 tickA) (by decide),
   (retransmit_response_sizes 2).2.2 (RingBuffer.init 2 tick0) 1 tickA
      (fun _ => tick0) 1 (by decide) (by decide)⟩

/-- Claim C6, counterexample: the publisher copies the symbol with
strncpy(dst, src, sizeof(dst) - 1), so the 4-character symbol "AAPL"
(bytes 65 65 80 76) goes on the wire as "AAP" plus NUL — the fourth
significant byte is truncated, refuting the claim that 4-character
symbols are carried in full. -/
theorem symbol_four_char_cex :
    symbolBytes (buildTick 1 0 0 [65, 65, 80, 76]) = [65, 65, 80, 0] ∧
    symbolBytes (buildTick 1 0 0 [65, 65, 80, 76]) ≠ [65, 65, 80, 76] := by
  decide

/-- Claim C6, amended: the symbol field carries at most 3 significant
bytes: a symbol of up to 3 non-NUL ASCII bytes is stored right-padded
with NUL, while a 4-byte symbol is truncated to its first 3 bytes
followed by NUL. -/
theorem symbol_truncated (seq_num timestamp price : ℕ) (sym : List ℕ)
    (hnz : ∀ b ∈ sym, b ≠ 0) :
    (sym.length ≤ 3 →
      symbolBytes (buildTick seq_num timestamp price sym) =
        sym ++ List.replicate (4 - sym.length) 0) ∧
    (sym.length = 4 →
      symbolBytes (buildTick seq_num timestamp price sym) =
        sym.take 3 ++ [0]) := by
  rw [symbolBytes_buildTick, strncpyBytes_noZero sym 3 hnz]
  constructor
  · intro h
    rw [List.take_of_length_le h, List.append_assoc]
    congr 1
    have h4 : 4 - sym.length = (3 - sym.length) + 1 := by omega
    rw [h4, List.replicate_succ']
  · intro h
    rw [h]
    simp

/-- Witness for the amended C6 theorem on the 3-byte symbol "ABC". -/
theorem symbol_truncated_wit :
    symbolBytes (buildTick 1 0 0 [65, 66, 67]) =
      [65, 66, 67] ++ List.replicate (4 - ([65, 66, 67] : List ℕ).length) 0 :=
  (symbol_truncated 1 0 0 [65, 66, 67] (by decide)).1 (by decide)

/-- Claim C7, counterexample: after a failed receive, a subsequent
well-formed datagram (sequence 5) is never processed — the same
datagram alone would be delivered — refuting the claim that the ingest
loop continues past a failed per-packet receive. -/
theorem recv_fail_continue_cex :
    seqsOf (ingestRun retransAll 0
      [RecvEvent.fail, RecvEvent.datagram (mkTick 5)]).delivered = [] ∧
    seqsOf (ingestRun retransAll 0
      [RecvEvent.datagram (mkTick 5)]).delivered = [5] := by
  decide

/-- Claim C7, amended: a failed receive on the multicast socket is
reported and BREAKS the ingest loop (no later event is processed, the
process then returns 0), while a datagram of the wrong size is simply
skipped with the loop continuing. -/
theorem recv_fail_breaks_loop (retrans : ℕ → Option TickPacket)
    (e n : ℕ) (evs : List RecvEvent) :
    ingestRun retrans e (RecvEvent.fail :: evs) = ⟨e, [], []⟩ ∧
    ingestRun retrans e (RecvEvent.wrongSize n :: evs) =
      ingestRun retrans e evs :=
  ⟨rfl, rfl⟩

/-- Claim C8, counterexample: the signal handler calls exit(signum), so
shutdown via SIGINT exits with code 2, not 0. -/
theorem sigint_exit_code_cex :
    subscriberExitCode (SubscriberTermination.signal SIGINT) = 2 ∧
    ¬ subscriberExitCode (SubscriberTermination.signal SIGINT) = 0 := by
  decide

/-- Claim C8, amended: on shutdown via an interrupt signal the
subscriber exits with the signal's number (2 for SIGINT) after printing
the mark-to-market report; exit code 1 is used for fatal exceptions and
exit code 0 only when the ingest loop itself ends. -/
theorem subscriber_exit_codes :
    subscriberExitCode (SubscriberTermination.signal SIGINT) = SIGINT ∧
    subscriberExitCode SubscriberTermination.fatalException = 1 ∧
    subscriberExitCode SubscriberTermination.loopEnd = 0 :=
  ⟨rfl, rfl, rfl⟩

/-- Claim C9: when the transient-anomaly branch is taken and the
fundamental-shock branch is not, the published price is the post-walk
price times (1 - d), while the persisted walk price for the symbol
stays at its post-random-walk (unshocked) value. -/
theorem transient_anomaly_frame (prices : ℕ → ℚ) (sym_idx : ℕ)
    (δ df da : ℚ) :
    (genStep prices sym_idx δ df da false true).2 =
      floor1 (prices sym_idx + prices sym_idx * δ) * (1 - da) ∧
    (genStep prices sym_idx δ df da false true).1 sym_idx =
      floor1 (prices sym_idx + prices sym_idx * δ) := by
  constructor
  · show floor1 (prices sym_idx + prices sym_idx * δ) -
        floor1 (prices sym_idx + prices sym_idx * δ) * da =
        floor1 (prices sym_idx + prices sym_idx * δ) * (1 - da)
    ring
  · show updatePrices prices sym_idx
        (floor1 (prices sym_idx + prices sym_idx * δ)) sym_idx =
        floor1 (prices sym_idx + prices sym_idx * δ)
    simp [updatePrices]

/-- Claim C10: on the freshly constructed ring (all recorded slot
sequence numbers at their zero default), get(0) spuriously reports the
default-valued tick as present, while get(s) for every s ≥ 1 returns
ABSENT. -/
theorem init_ring_reports_seq_zero (d : TickPacket) (s : ℕ)
    (hs : 1 ≤ s) :
    (RingBuffer.init RING_BUFFER_SIZE d).get 0 = some d ∧
    (RingBuffer.init RING_BUFFER_SIZE d).get s = none := by
  constructor
  · rfl
  · simp only [RingBuffer.get, RingBuffer.init, RING_BUFFER_SIZE]
    rw [if_neg (by omega), if_neg (by omega)]

/-- Witness for the C10 theorem at s = 5. -/
theorem init_ring_reports_seq_zero_wit :
    (RingBuffer.init RING_BUFFER_SIZE tick0).get 0 = some tick0 ∧
    (RingBuffer.init RING_BUFFER_SIZE tick0).get 5 = none :=
  init_ring_reports_seq_zero tick0 5 (by decide)

end MarketSim
